import Mathlib

/-!
Verification development for the yandex-music-downloader repository.

The definitions below are shallow embeddings of the Python source:

* `extract_playlist_id`, `resolveIdentifier` — `core/yandex_music_core.py`,
  `YandexMusicCore.extract_playlist_id` (lines 75-96) together with the
  literal-token dispatch at the top of `get_playlist_info` (line 170).
* `selectBestInfo`, `get_best_quality_download_info` —
  `YandexMusicCore.get_best_quality_download_info` (lines 270-313).
* `download_track_file` — `YandexMusicCore.download_track_file` (lines 315-355).
* `download_track` — `yandex_music_downloader.py`,
  `YandexMusicDownloader.download_track`, the part from line 325 on.
* `fetch_tracks_batch` — `YandexMusicCore.fetch_tracks_batch` (lines 205-233).
* `get_liked_tracks_data`, `get_playlist_tracks_data` —
  `music_downloader/services.py`, the two arms of
  `YandexMusicService.get_playlist_info` (lines 56-275).
* `download_tracks_run` — `YandexMusicService.download_tracks` (lines 325-453).

Side effects (network calls, the filesystem, progress updates, sleeps) are
made explicit: network calls become oracle functions passed as arguments,
the filesystem becomes an association list from paths to sizes, progress
updates and sleeps are accumulated in lists, and Python exceptions become
`Option`/sum-like outcomes of the oracles.
-/

namespace YMusic

/-! ## String/regex helpers

`extract_playlist_id` uses `re.search` with the pattern
`https?://music\.yandex\.[a-z]+/users/([^/]+)/playlists/(\d+)`.
For this pattern, Python's leftmost-greedy matching coincides with
deterministic maximal munch: each quantified character class is followed by
a literal character that the class excludes (`[a-z]+` by `/`, `[^/]+` by
`/`), so backtracking into a quantifier can never produce a match that
maximal munch misses, and `https?` is decided by the single following
character (`s` vs `:`).  Python's `\d` also covers non-ASCII decimal
digits; the embedding restricts to ASCII, which is exact on all inputs the
claims mention. -/

/-- Consume the literal `expected` from the front of `input`. -/
def eatLit : List Char → List Char → Option (List Char)
  | [], cs => some cs
  | _ :: _, [] => none
  | e :: es, c :: cs => if c = e then eatLit es cs else none

/-- The regex class `[a-z]`. -/
def isLowerAZ (c : Char) : Bool := 'a' ≤ c && c ≤ 'z'

/-- The regex class `\d`, restricted to ASCII. -/
def isDigit09 (c : Char) : Bool := '0' ≤ c && c ≤ '9'

/-- The regex class `[^/]`. -/
def notSlash (c : Char) : Bool := c != '/'

/-- Continuation of `matchOwnedAt` after the scheme part
`https?` has been consumed: matches
`://music\.yandex\.[a-z]+/users/([^/]+)/playlists/(\d+)`. -/
def matchOwnedAfterScheme (cs2 : List Char) : Option (String × String) :=
  match eatLit "://music.yandex.".data cs2 with
  | none => none
  | some cs3 =>
    let tld := cs3.takeWhile isLowerAZ
    let cs4 := cs3.dropWhile isLowerAZ
    if tld.isEmpty then none
    else
      match eatLit "/users/".data cs4 with
      | none => none
      | some cs5 =>
        let owner := cs5.takeWhile notSlash
        let cs6 := cs5.dropWhile notSlash
        if owner.isEmpty then none
        else
          match eatLit "/playlists/".data cs6 with
          | none => none
          | some cs7 =>
            let digits := cs7.takeWhile isDigit09
            if digits.isEmpty then none
            else some (String.mk owner, String.mk digits)

/-- Match `https?://music\.yandex\.[a-z]+/users/([^/]+)/playlists/(\d+)`
at the head of `cs`, returning the two capture groups.  The optional `s` is
consumed whenever present, which agrees with the regex: the next required
character is `:`, so a match with the `s` unconsumed and an `s` present is
impossible. -/
def matchOwnedAt (cs : List Char) : Option (String × String) :=
  match eatLit "http".data cs with
  | none => none
  | some cs1 =>
    matchOwnedAfterScheme (if cs1.headD ' ' = 's' then cs1.tail else cs1)

/-- Python `re.search`: try the pattern at every start position, leftmost first. -/
def searchOwned : List Char → Option (String × String)
  | [] => none
  | c :: rest =>
    match matchOwnedAt (c :: rest) with
    | some r => some r
    | none => searchOwned rest

/-- Python `s.split(':')`: split at every colon, keeping empty parts. -/
def splitColon : List Char → List (List Char)
  | [] => [[]]
  | c :: rest =>
    let r := splitColon rest
    if c = ':' then [] :: r
    else
      match r with
      | h :: t => (c :: h) :: t
      | [] => [[c]]

/-- Embeds `YandexMusicCore.extract_playlist_id` (core, lines 75-96): first
`re.search` with the URL pattern, then the `owner:playlist_id` colon split
(Python `split(':')` giving exactly two parts; parts may be empty). -/
def extract_playlist_id (s : String) : Option (String × String) :=
  match searchOwned s.data with
  | some r => some r
  | none =>
    match splitColon s.data with
    | [a, b] => some (String.mk a, String.mk b)
    | _ => none

/-- Python `str.lower`, restricted to ASCII (exact on the claims' inputs). -/
def lowerChar (c : Char) : Char :=
  if 'A' ≤ c && c ≤ 'Z' then Char.ofNat (c.toNat + 32) else c

/-- ASCII model of Python `str.lower`. -/
def pyLower (s : String) : String := String.mk (s.data.map lowerChar)

/-- Canonical playlist reference (spec §3 `PlaylistReference`). -/
inductive PlaylistRef where
  | liked : PlaylistRef
  | owned (owner id : String) : PlaylistRef
  | byUuid (id : String) : PlaylistRef
deriving DecidableEq

/-- Embeds the identifier-resolution dispatch of
`YandexMusicCore.get_playlist_info` (core, lines 168-178): the literal
tokens `liked`/`favorites`/`my` resolve to the liked collection, anything
else goes through `extract_playlist_id`; `none` is the `InvalidFormat`
outcome. -/
def resolveIdentifier (s : String) : Option PlaylistRef :=
  if pyLower s = "liked" ∨ pyLower s = "favorites" ∨ pyLower s = "my" then
    some PlaylistRef.liked
  else
    match extract_playlist_id s with
    | some (o, i) => some (PlaylistRef.owned o i)
    | none => none






/-! ## Quality selector

Embeds the selection body of `get_best_quality_download_info` (core, lines
286-299).  Python's `max(xs, key=k)` returns the first element whose key is
maximal in a left-to-right scan (an element replaces the current best only
when its key is strictly greater). -/

/-- One download variant as returned by `tracks_download_info`:
`codec` (a string) and `bitrate_in_kbps` (possibly `None`). -/
structure DownloadInfo where
  codec : String
  bitrate_in_kbps : Option Nat
deriving DecidableEq

/-- Effective bitrate `x.bitrate_in_kbps or 0` — `None` counts as 0. -/
def effBitrate (i : DownloadInfo) : Nat := i.bitrate_in_kbps.getD 0

/-- Fallback table `codec_priority = {'flac': 4, 'mp3': 3, 'aac': 2}` with `.get(c, 0)`. -/
def codecPriority (c : String) : Nat :=
  if c = "flac" then 4 else if c = "mp3" then 3 else if c = "aac" then 2 else 0

/-- Python `max` over `a :: l` with a `Nat` key: keep the current best,
replace only on a strictly greater key. -/
def pymaxNat (key : α → Nat) (a : α) : List α → α
  | [] => a
  | b :: t => if key a < key b then pymaxNat key b t else pymaxNat key a t

/-- Strict lexicographic order on `Nat × Nat` key pairs, as Python compares
tuples. -/
def lex2Lt (p q : Nat × Nat) : Prop :=
  p.1 < q.1 ∨ (p.1 = q.1 ∧ p.2 < q.2)

instance (p q : Nat × Nat) : Decidable (lex2Lt p q) := by
  unfold lex2Lt; infer_instance

/-- Non-strict lexicographic order on `Nat × Nat` key pairs. -/
def lex2Le (p q : Nat × Nat) : Prop :=
  p.1 < q.1 ∨ (p.1 = q.1 ∧ p.2 ≤ q.2)

/-- Python `max` over `a :: l` with a pair key compared lexicographically. -/
def pymaxLex (key : α → Nat × Nat) (a : α) : List α → α
  | [] => a
  | b :: t => if lex2Lt (key a) (key b) then pymaxLex key b t else pymaxLex key a t

/-- Embeds the variant-selection body of `get_best_quality_download_info`
(core, lines 286-299): filter for the preferred codec and take the highest
bitrate among matches, else take the maximum under the
`(codec priority, bitrate)` pair.  The `[]` case corresponds to the
`if not download_infos: return None` guard (line 284). -/
def selectBestInfo (preferredFormat : String) (infos : List DownloadInfo) :
    Option DownloadInfo :=
  match infos.filter (fun i => i.codec == preferredFormat) with
  | p :: ps => some (pymaxNat effBitrate p ps)
  | [] =>
    match infos with
    | [] => none
    | i :: rest =>
      some (pymaxLex (fun x => (codecPriority x.codec, effBitrate x)) i rest)



/-! ## Variant lookup with retry/backoff

Embeds the retry loop of `get_best_quality_download_info` (core, lines
281-313).  The network call `self.client.tracks_download_info(track_id)` is
an oracle indexed by the attempt number; its outcome is either the variant
list, a transient network error (`NetworkError` /
`requests.exceptions.RequestException`), or any other exception.  The
returned triple records the result, the number of attempts that issued the
request, and the list of back-off sleeps (in seconds) performed. -/

/-- Outcome of one `tracks_download_info` call. -/
inductive LookupOutcome where
  | ok (infos : List DownloadInfo) : LookupOutcome
  | netErr : LookupOutcome
  | otherErr : LookupOutcome
deriving DecidableEq

/-- The `for attempt in range(max_retries)` loop from iteration `attempt`
on, with `remaining = max_retries - attempt` iterations left (kept as a
separate structural argument so the kernel can evaluate the recursion).
Mirrors core lines 281-313: an empty (or missing) variant list returns
`None` immediately; a network error sleeps `2 ** attempt` and retries while
`attempt < max_retries - 1` (equivalently, while further iterations
remain), else returns `None`; any other exception returns `None`; falling
off the loop returns `None` (line 313). -/
def gbqGo (oracle : Nat → LookupOutcome) (preferredFormat : String) :
    Nat → Nat → Option DownloadInfo × Nat × List Nat
  | _, 0 => (none, 0, [])
  | attempt, r + 1 =>
    match oracle attempt with
    | .ok infos =>
      if infos.isEmpty then (none, 1, [])
      else (selectBestInfo preferredFormat infos, 1, [])
    | .netErr =>
      if 0 < r then
        let q := gbqGo oracle preferredFormat (attempt + 1) r
        (q.1, q.2.1 + 1, 2 ^ attempt :: q.2.2)
      else (none, 1, [])
    | .otherErr => (none, 1, [])

/-- Embeds `get_best_quality_download_info` (core, lines 270-313). -/
def get_best_quality_download_info (oracle : Nat → LookupOutcome)
    (preferredFormat : String) (maxRetries : Nat) :
    Option DownloadInfo × Nat × List Nat :=
  gbqGo oracle preferredFormat 0 maxRetries



/-! ## Download executors

State made explicit: the filesystem is an association list from paths to
file sizes (later writes shadow earlier ones), and `transfers` counts the
streaming HTTP requests issued (`session.get` / `requests.get`).  The
outcomes of the variant lookup, of `get_direct_link()` and of the HTTP
transfer are oracle arguments. -/

/-- Association-list lookup, first match wins. -/
def fsLookup : List (String × Nat) → String → Option Nat
  | [], _ => none
  | (q, n) :: t, p => if q = p then some n else fsLookup t p

/-- Writing a file: record the new size in front. -/
def fsWrite (fs : List (String × Nat)) (p : String) (n : Nat) :
    List (String × Nat) :=
  (p, n) :: fs

/-- Filesystem plus a count of streaming transfers performed. -/
structure World where
  files : List (String × Nat)
  transfers : Nat
deriving DecidableEq

/-- The `file_info` dict built by `download_track_file` (core, lines
345-349). -/
structure FileInfo where
  size : Nat
  format : String
  bitrate : Option Nat
deriving DecidableEq

/-- Embeds `YandexMusicCore.download_track_file` (core, lines 315-355):
no variant info or no direct link returns `(False, None)`; otherwise the
track is streamed to `outputPath` unconditionally — the function performs
no existence check on `outputPath`.  A failing transfer (`raise_for_status`
or a streaming error, both caught by the outer `except`) returns
`(False, None)`.  On success the reported size is the written file's size. -/
def download_track_file (info : Option DownloadInfo)
    (directLink : Option String) (transferOk : Bool) (bytes : Nat)
    (outputPath : String) (w : World) :
    (Bool × Option FileInfo) × World :=
  match info with
  | none => ((false, none), w)
  | some di =>
    match directLink with
    | none => ((false, none), w)
    | some _ =>
      if transferOk then
        ((true, some ⟨bytes, di.codec, di.bitrate_in_kbps⟩),
          ⟨fsWrite w.files outputPath bytes, w.transfers + 1⟩)
      else
        ((false, none), ⟨w.files, w.transfers + 1⟩)

/-- Embeds the CLI `YandexMusicDownloader.download_track`
(yandex_music_downloader.py, from line 325): obtain the variant info
(`None` fails), then — before resolving any link — skip with `True` if
`filepath` already exists (lines 337-339); otherwise resolve the direct
link (`None` fails) and stream the file.  The function returns only a
boolean; it reports no size, codec or bitrate. -/
def download_track (info : Option DownloadInfo) (directLink : Option String)
    (transferOk : Bool) (bytes : Nat) (filepath : String) (w : World) :
    Bool × World :=
  match info with
  | none => (false, w)
  | some _ =>
    if (fsLookup w.files filepath).isSome then (true, w)
    else
      match directLink with
      | none => (false, w)
      | some _ =>
        if transferOk then
          (true, ⟨fsWrite w.files filepath bytes, w.transfers + 1⟩)
        else (false, ⟨w.files, w.transfers + 1⟩)

/-! ## Batch fetcher

Embeds `chunked` (core, lines 23-26) and `fetch_tracks_batch` (core, lines
205-233).  `self.client.tracks(ids)` becomes the oracle `tracksF`: `none`
models a raised exception, `some lst` a returned list whose elements may be
`None` (modelled as `Option` values). -/

/-- Worker for `chunked`, structurally recursive on a fuel that bounds the
number of chunks (any fuel at least the list length is exact, since each
step drops at least one element when `0 < size`). -/
def chunkedGo (size : Nat) : Nat → List α → List (List α)
  | 0, _ => []
  | _ + 1, [] => []
  | fuel + 1, x :: xs =>
    (x :: xs).take size :: chunkedGo size fuel ((x :: xs).drop size)

/-- Python `chunked(iterable, size)` (core, lines 23-26) for `size > 0`.  (Python
`range` with step 0 raises `ValueError`; the source only ever calls this
with positive sizes, so the `size = 0` branch is never exercised.) -/
def chunked (l : List α) (size : Nat) : List (List α) :=
  if size = 0 then [] else chunkedGo size l.length l

/-- Result contributed by one chunk in `fetch_tracks_batch` (core, lines
218-231): one batch call keeping the non-`None` entries, or — when the
batch call raises — one call per id, appending the first element when that
call returns a non-empty list with a non-`None` head, and skipping ids that
still fail. -/
def batchResult (tracksF : List String → Option (List (Option α)))
    (batch : List String) : List α :=
  match tracksF batch with
  | some bt => bt.filterMap id
  | none =>
    batch.filterMap (fun tid =>
      match tracksF [tid] with
      | some (some t :: _) => some t
      | _ => none)

/-- Embeds `fetch_tracks_batch` (core, lines 205-233). -/
def fetch_tracks_batch (tracksF : List String → Option (List (Option α)))
    (track_ids : List String) (batch_size : Nat) : List α :=
  (chunked track_ids batch_size).foldl
    (fun acc batch => acc ++ batchResult tracksF batch) []

/-! ## Playlist-info track loading (services.py)

Embeds the two arms of `YandexMusicService.get_playlist_info`
(music_downloader/services.py, lines 56-275).  Only the fields the claims
concern are kept per record: the stored id and the stored `position`.
A remote track object carries the two id attributes the code probes
(either may be missing, modelled as the empty string, Python's falsy
value after `str(...)`). -/

/-- A fetched remote track object: the `id` and `track_id` attributes as
strings (`""` when absent — `str(getattr(t, 'id', ''))` is falsy exactly
when empty). -/
structure RawTrack where
  id : String
  track_id : String
deriving DecidableEq

/-- Accumulator of the liked-tracks arm: records `(stored id, position)` in
append order, plus the `processed` counter. -/
def LikedState : Type := List (String × Nat) × Nat

/-- One track of a successfully fetched batch (services.py, lines 90-121):
skip `None` entries, compute `track_id = str(getattr(t,'id','')) or
str(getattr(t,'track_id',''))`, skip when that is empty, otherwise append a
record with `position := processed` and increment `processed`. -/
def likedStepTrack (st : LikedState) (ot : Option RawTrack) : LikedState :=
  match ot with
  | none => st
  | some t =>
    let tid := if t.id ≠ "" then t.id else t.track_id
    if tid = "" then st
    else (st.1 ++ [(tid, st.2)], st.2 + 1)

/-- One chunk of the liked-tracks arm (services.py, lines 84-161): fetch
the batch; on an exception fall back to per-id calls, appending a record
keyed by the requested id with `position := processed` whenever the call
returns a non-empty list with a non-`None` head. -/
def likedStepBatch (tracksF : List String → Option (List (Option RawTrack)))
    (st : LikedState) (batch : List String) : LikedState :=
  match tracksF batch with
  | some bt => bt.foldl likedStepTrack st
  | none =>
    batch.foldl
      (fun st tid =>
        match tracksF [tid] with
        | some (some _ :: _) => (st.1 ++ [(tid, st.2)], st.2 + 1)
        | _ => st)
      st

/-- Embeds the liked-tracks arm of `get_playlist_info` (services.py, lines
69-170): the ids are processed in chunks of 100 starting from
`processed = 0` and an empty record list. -/
def get_liked_tracks_data
    (tracksF : List String → Option (List (Option RawTrack)))
    (ids : List String) : List (String × Nat) :=
  ((chunked ids 100).foldl (likedStepBatch tracksF) ([], 0)).1

/-- One entry of `playlist.tracks` as probed by services.py lines 209-226:
either an inline `track` object, or only a `track_id`/`id` reference, or
neither attribute (then the entry is silently dropped). -/
inductive PTrackShort where
  | withTrack (t : RawTrack) : PTrackShort
  | withId (tid : String) : PTrackShort
  | neither : PTrackShort
deriving DecidableEq

/-- First pass of the playlist arm (services.py, lines 209-229), from
index `i`: inline tracks become records with `position := i` (the original
playlist index); id-only entries are collected as `(i, tid)` for the batch
fetch; entries with neither attribute are dropped. -/
def playlistCollect : List PTrackShort → Nat →
    List (String × Nat) × List (Nat × String)
  | [], _ => ([], [])
  | e :: rest, i =>
    let (recs, miss) := playlistCollect rest (i + 1)
    match e with
    | .withTrack t => ((t.id, i) :: recs, miss)
    | .withId tid => (recs, (i, tid) :: miss)
    | .neither => (recs, miss)

/-- Second pass of the playlist arm (services.py, lines 232-259): fetch the
missing entries in chunks of 100; a raised batch call contributes nothing
(`batch_tracks = []` — the playlist arm has no per-id fallback); fetched
tracks are appended with `position := idxs[j]` (the original playlist
index, `0` when `j` runs past `idxs`), skipping `None` entries. -/
def playlistFetchMissing
    (tracksF : List String → Option (List (Option RawTrack)))
    (recs : List (String × Nat)) (missing : List (Nat × String)) :
    List (String × Nat) :=
  (chunked missing 100).foldl
    (fun recs batch =>
      let idxs := batch.map Prod.fst
      let ids := batch.map Prod.snd
      let bt := (tracksF ids).getD []
      (bt.enum.foldl
        (fun recs jt =>
          match jt.2 with
          | none => recs
          | some t => recs ++ [(t.id, idxs.getD jt.1 0)])
        recs))
    recs

/-- Stable insertion by position (`tracks_data.sort(key=lambda x:
x['position'])`, services.py line 262; Python's sort is stable). -/
def insertByPos (x : String × Nat) : List (String × Nat) → List (String × Nat)
  | [] => [x]
  | y :: t => if x.2 ≤ y.2 then x :: y :: t else y :: insertByPos x t

/-- Stable sort by position. -/
def sortByPos : List (String × Nat) → List (String × Nat)
  | [] => []
  | x :: t => insertByPos x (sortByPos t)

/-- Embeds the ordinary-playlist arm of `get_playlist_info` (services.py,
lines 202-263): inline records first, then batch-fetched ones, then a
stable sort by the stored positions. -/
def get_playlist_tracks_data
    (tracksF : List String → Option (List (Option RawTrack)))
    (entries : List PTrackShort) : List (String × Nat) :=
  let cm := playlistCollect entries 0
  sortByPos (playlistFetchMissing tracksF cm.1 cm.2)

/-! ## Download loop (services.py `download_tracks`)

Embeds the per-track loop of `YandexMusicService.download_tracks`
(services.py, lines 368-450).  Each track's fate is abstracted into the
four outcomes the control flow distinguishes; `update_progress` events are
accumulated as `(current, total)` pairs. -/

/-- Fate of one track in the download loop. -/
inductive TrackOutcome where
  | success : TrackOutcome
  | noInfos : TrackOutcome
  | noUrl : TrackOutcome
  | exn : TrackOutcome
deriving DecidableEq

/-- Predicate that is `true` exactly for `success`. -/
def TrackOutcome.isSuccess : TrackOutcome → Bool
  | .success => true
  | _ => false

/-- Counters plus the accumulated progress events of one run. -/
structure RunState where
  successful : Nat
  failed : Nat
  events : List (Nat × Nat)
deriving DecidableEq

/-- One loop iteration for 1-based index `idx` (services.py, lines
380-439): a progress event `(idx-1, total)` is always emitted first; a
successful download increments `successful` and emits `(idx, total)`; the
`if not download_infos` and `if not download_url` paths increment `failed`
and `continue` with no further event; an exception increments `failed` and
emits `(idx, total)`. -/
def stepTrack (total idx : Nat) (o : TrackOutcome) (s : RunState) : RunState :=
  let s := { s with events := s.events ++ [(idx - 1, total)] }
  match o with
  | .success =>
    { s with successful := s.successful + 1, events := s.events ++ [(idx, total)] }
  | .noInfos => { s with failed := s.failed + 1 }
  | .noUrl => { s with failed := s.failed + 1 }
  | .exn =>
    { s with failed := s.failed + 1, events := s.events ++ [(idx, total)] }

/-- The `for idx, track in enumerate(tracks_to_download, 1)` loop. -/
def runLoop (total : Nat) : Nat → List TrackOutcome → RunState → RunState
  | _, [], s => s
  | idx, o :: rest, s => runLoop total (idx + 1) rest (stepTrack total idx o s)

/-- Embeds `download_tracks` (services.py, lines 368-450) from the counter
initialisation on: the initial `(0, total)` progress event, the per-track
loop, and the final branch — when `successful > 0` a last `(total, total)`
event is emitted and the run reports `True`, otherwise it reports `False`
with no further event.  The function is total: per-track failures are
consumed by the loop and never escape. -/
def download_tracks_run (outcomes : List TrackOutcome) : Bool × RunState :=
  let total := outcomes.length
  let s := runLoop total 1 outcomes ⟨0, 0, [(0, total)]⟩
  if 0 < s.successful then
    (true, { s with events := s.events ++ [(total, total)] })
  else (false, s)

/-! ## UUID playlist references (spec-modelled)

services.py lines 180-195 handle the case where `extract_playlist_id`
returned the marker owner `'__uuid_playlist__'` and call
`self.resolve_uuid_playlist(...)`, but the `extract_playlist_id` variant
that produces this marker and `resolve_uuid_playlist` itself are not among
the provided sources — only this caller is.  The definitions below model
the missing resolver form from the spec. -/

/-- A character of `<uuid>`: hexadecimal digit or hyphen. -/
def isUuidChar (c : Char) : Bool :=
  isDigit09 c || ('a' ≤ c && c ≤ 'f') || c = '-'

/-- Modelled from the spec: continuation of `matchUuidAt` after the
scheme part. -/
def matchUuidAfterScheme (cs2 : List Char) : Option String :=
  match eatLit "://".data cs2 with
  | none => none
  | some cs3 =>
    let host := cs3.takeWhile notSlash
    let cs4 := cs3.dropWhile notSlash
    if host.isEmpty then none
    else
      match eatLit "/playlists/".data cs4 with
      | none => none
      | some cs5 =>
        let uuid := cs5.takeWhile isUuidChar
        if uuid.isEmpty then none
        else some (String.mk uuid)

/-- Modelled from the spec: the missing `extract_playlist_id` variant's
third recognized form, §4.1 item 3 — "A URL matching pattern
`scheme://host/playlists/<uuid>` → `ByUuid{id=uuid}`": match
`https?://[^/]+/playlists/<uuid>` at the head of `cs` and return the uuid
capture. -/
def matchUuidAt (cs : List Char) : Option String :=
  match eatLit "http".data cs with
  | none => none
  | some cs1 =>
    matchUuidAfterScheme (if cs1.headD ' ' = 's' then cs1.tail else cs1)

/-- Modelled from the spec: leftmost search for the uuid-URL form. -/
def searchUuid : List Char → Option String
  | [] => none
  | c :: rest =>
    match matchUuidAt (c :: rest) with
    | some r => some r
    | none => searchUuid rest

/-- Modelled from the spec: the missing `extract_playlist_id` variant —
the owner-URL form first (spec §4.1 item 2), then the uuid form (item 3),
reported through the `'__uuid_playlist__'` marker owner that its caller
services.py lines 180-195 branches on, then the colon split (item 4). -/
def extract_playlist_id_full (s : String) : Option (String × String) :=
  match searchOwned s.data with
  | some r => some r
  | none =>
    match searchUuid s.data with
    | some u => some ("__uuid_playlist__", u)
    | none =>
      match splitColon s.data with
      | [a, b] => some (String.mk a, String.mk b)
      | _ => none

/-- Modelled from the spec: the full identifier resolver — literal tokens
(spec §4.1 item 1, services.py line 58), then `extract_playlist_id_full`,
with the marker owner mapped to a `ByUuid` reference as services.py lines
180-195 do. -/
def resolveIdentifierFull (s : String) : Option PlaylistRef :=
  if pyLower s = "liked" ∨ pyLower s = "favorites" ∨ pyLower s = "my" then
    some PlaylistRef.liked
  else
    match extract_playlist_id_full s with
    | some (o, i) =>
      if o = "__uuid_playlist__" then some (PlaylistRef.byUuid i)
      else some (PlaylistRef.owned o i)
    | none => none



/-! ## Derived notions used by the statements -/

/-- Number of tracks that fail in a run (the `K` of the partial-failure
invariant). -/
def failCount (os : List TrackOutcome) : Nat :=
  (os.filter (fun o => !o.isSuccess)).length

/-- Number of tracks that succeed in a run. -/
def succCount (os : List TrackOutcome) : Nat :=
  (os.filter (fun o => o.isSuccess)).length

/-- The full selection key of `selectBestInfo`: whether the variant matches
the preferred codec dominates, then the fallback codec priority, then the
effective bitrate. -/
def bigKey (preferredFormat : String) (x : DownloadInfo) : Nat × Nat × Nat :=
  ((if x.codec == preferredFormat then 1 else 0),
    codecPriority x.codec, effBitrate x)

/-- Non-strict lexicographic order on triples of naturals. -/
def lex3Le (p q : Nat × Nat × Nat) : Prop :=
  p.1 < q.1 ∨ (p.1 = q.1 ∧ (p.2.1 < q.2.1 ∨ (p.2.1 = q.2.1 ∧ p.2.2 ≤ q.2.2)))

/-- Invariant of the liked-tracks loop: the `processed` counter equals the
number of appended records, and the recorded positions are exactly
`0, …, length - 1` in order. -/
def LikedInv (st : LikedState) : Prop :=
  st.2 = st.1.length ∧ st.1.map Prod.snd = List.range st.1.length

/-! # Theorems -/

/-! ## Generic helper lemmas -/

theorem foldl_inv {σ α : Type _} (Inv : σ → Prop) (g : σ → α → σ)
    (hg : ∀ s x, Inv s → Inv (g s x)) :
    ∀ (l : List α) (s : σ), Inv s → Inv (l.foldl g s)
  | [], _, hs => hs
  | x :: t, s, hs => foldl_inv Inv g hg t (g s x) (hg s x hs)

theorem eatLit_append (l r : List Char) : eatLit l (l ++ r) = some r := by
  induction l with
  | nil => rfl
  | cons c t ih => simp [eatLit, ih]

theorem takeWhile_append_cons (p : Char → Bool) (xs : List Char) (c : Char)
    (rest : List Char) (hall : ∀ x ∈ xs, p x = true) (hc : p c = false) :
    (xs ++ c :: rest).takeWhile p = xs := by
  induction xs with
  | nil => simp [List.takeWhile_cons, hc]
  | cons x t ih =>
    have hx := hall x (by simp)
    simp only [List.cons_append, List.takeWhile_cons, hx, if_true]
    rw [ih (fun y hy => hall y (by simp [hy]))]

theorem dropWhile_append_cons (p : Char → Bool) (xs : List Char) (c : Char)
    (rest : List Char) (hall : ∀ x ∈ xs, p x = true) (hc : p c = false) :
    (xs ++ c :: rest).dropWhile p = c :: rest := by
  induction xs with
  | nil => simp [List.dropWhile_cons, hc]
  | cons x t ih =>
    have hx := hall x (by simp)
    simp only [List.cons_append, List.dropWhile_cons, hx, if_true]
    exact ih (fun y hy => hall y (by simp [hy]))

theorem takeWhile_all (p : Char → Bool) (xs : List Char)
    (hall : ∀ x ∈ xs, p x = true) : xs.takeWhile p = xs := by
  induction xs with
  | nil => rfl
  | cons x t ih =>
    have hx := hall x (by simp)
    simp only [List.takeWhile_cons, hx, if_true]
    rw [ih (fun y hy => hall y (by simp [hy]))]

/-! ## Lemmas on `pymaxNat` / `pymaxLex` -/

theorem pymaxNat_mem (key : α → Nat) :
    ∀ (l : List α) (a : α), pymaxNat key a l ∈ a :: l
  | [], a => by simp [pymaxNat]
  | b :: t, a => by
    by_cases h : key a < key b
    · have hm := pymaxNat_mem key t b
      simp only [pymaxNat, if_pos h]
      simp only [List.mem_cons] at hm ⊢
      tauto
    · have hm := pymaxNat_mem key t a
      simp only [pymaxNat, if_neg h]
      simp only [List.mem_cons] at hm ⊢
      tauto

theorem pymaxNat_ge (key : α → Nat) :
    ∀ (l : List α) (a x : α), x ∈ a :: l → key x ≤ key (pymaxNat key a l)
  | [], a, x, hx => by
    simp at hx
    subst hx
    simp [pymaxNat]
  | b :: t, a, x, hx => by
    by_cases h : key a < key b
    · simp only [pymaxNat, if_pos h]
      rcases List.mem_cons.mp hx with rfl | hx2
      · have hb := pymaxNat_ge key t b b (by simp)
        omega
      · exact pymaxNat_ge key t b x hx2
    · simp only [pymaxNat, if_neg h]
      rcases List.mem_cons.mp hx with rfl | hx2
      · exact pymaxNat_ge key t x x (by simp)
      · rcases List.mem_cons.mp hx2 with rfl | hx3
        · have ha := pymaxNat_ge key t a a (by simp)
          omega
        · exact pymaxNat_ge key t a x (by simp [hx3])

theorem lex2Le_refl (p : Nat × Nat) : lex2Le p p := by
  unfold lex2Le; omega

theorem lex2Le_of_lt {p q : Nat × Nat} (h : lex2Lt p q) : lex2Le p q := by
  unfold lex2Lt at h; unfold lex2Le; omega

theorem lex2Le_of_not_lt {p q : Nat × Nat} (h : ¬lex2Lt p q) : lex2Le q p := by
  unfold lex2Lt at h; unfold lex2Le; omega

theorem lex2Le_trans {p q r : Nat × Nat} (h1 : lex2Le p q) (h2 : lex2Le q r) :
    lex2Le p r := by
  unfold lex2Le at h1 h2 ⊢; omega

theorem pymaxLex_mem (key : α → Nat × Nat) :
    ∀ (l : List α) (a : α), pymaxLex key a l ∈ a :: l
  | [], a => by simp [pymaxLex]
  | b :: t, a => by
    by_cases h : lex2Lt (key a) (key b)
    · have hm := pymaxLex_mem key t b
      simp only [pymaxLex, if_pos h]
      simp only [List.mem_cons] at hm ⊢
      tauto
    · have hm := pymaxLex_mem key t a
      simp only [pymaxLex, if_neg h]
      simp only [List.mem_cons] at hm ⊢
      tauto

theorem pymaxLex_ge (key : α → Nat × Nat) :
    ∀ (l : List α) (a x : α), x ∈ a :: l →
      lex2Le (key x) (key (pymaxLex key a l))
  | [], a, x, hx => by
    simp at hx
    subst hx
    simp only [pymaxLex]
    exact lex2Le_refl _
  | b :: t, a, x, hx => by
    by_cases h : lex2Lt (key a) (key b)
    · simp only [pymaxLex, if_pos h]
      rcases List.mem_cons.mp hx with rfl | hx2
      · exact lex2Le_trans (lex2Le_of_lt h) (pymaxLex_ge key t b b (by simp))
      · exact pymaxLex_ge key t b x hx2
    · simp only [pymaxLex, if_neg h]
      rcases List.mem_cons.mp hx with rfl | hx2
      · exact pymaxLex_ge key t x x (by simp)
      · rcases List.mem_cons.mp hx2 with rfl | hx3
        · exact lex2Le_trans (lex2Le_of_not_lt h) (pymaxLex_ge key t a a (by simp))
        · exact pymaxLex_ge key t a x (by simp [hx3])

/-! ## Lemmas on `selectBestInfo` -/

theorem selectBestInfo_some (preferredFormat : String)
    (infos : List DownloadInfo) (hne : infos ≠ []) :
    ∃ v, selectBestInfo preferredFormat infos = some v := by
  rcases hfe : infos.filter (fun i => i.codec == preferredFormat) with _ | ⟨p, ps⟩
  · cases infos with
    | nil => exact absurd rfl hne
    | cons i rest =>
      exact ⟨pymaxLex (fun x => (codecPriority x.codec, effBitrate x)) i rest,
        by simp [selectBestInfo, hfe]⟩
  · exact ⟨pymaxNat effBitrate p ps, by simp [selectBestInfo, hfe]⟩

theorem selectBestInfo_mem {preferredFormat : String}
    {infos : List DownloadInfo} {v : DownloadInfo}
    (h : selectBestInfo preferredFormat infos = some v) : v ∈ infos := by
  unfold selectBestInfo at h
  rcases hfe : infos.filter (fun i => i.codec == preferredFormat) with _ | ⟨p, ps⟩ <;>
    rw [hfe] at h
  · cases infos with
    | nil => simp at h
    | cons i rest =>
      have hv := Option.some.inj h
      rw [← hv]
      exact pymaxLex_mem _ rest i
  · have hv := Option.some.inj h
    have hm : v ∈ p :: ps := by
      rw [← hv]; exact pymaxNat_mem _ ps p
    rw [← hfe] at hm
    exact (List.mem_filter.mp hm).1

theorem selectBestInfo_max {preferredFormat : String}
    {infos : List DownloadInfo} {v : DownloadInfo}
    (h : selectBestInfo preferredFormat infos = some v) :
    ∀ w ∈ infos, lex3Le (bigKey preferredFormat w) (bigKey preferredFormat v) := by
  unfold selectBestInfo at h
  rcases hfe : infos.filter (fun i => i.codec == preferredFormat) with _ | ⟨p, ps⟩ <;>
    rw [hfe] at h
  · have hnone : ∀ w ∈ infos, (w.codec == preferredFormat) = false := by
      intro w hw
      cases hcw : (w.codec == preferredFormat) with
      | false => rfl
      | true =>
        have hm : w ∈ infos.filter (fun i => i.codec == preferredFormat) :=
          List.mem_filter.mpr ⟨hw, hcw⟩
        rw [hfe] at hm
        simp at hm
    cases infos with
    | nil => intro w hw; simp at hw
    | cons i rest =>
      have hv := Option.some.inj h
      intro w hw
      have hle :=
        pymaxLex_ge (fun x => (codecPriority x.codec, effBitrate x)) rest i w hw
      rw [hv] at hle
      have hle2 : lex2Le (codecPriority w.codec, effBitrate w)
          (codecPriority v.codec, effBitrate v) := hle
      have hw0 := hnone w hw
      have hv0 := hnone v (by rw [← hv]; exact pymaxLex_mem _ rest i)
      have kw : bigKey preferredFormat w =
          (0, codecPriority w.codec, effBitrate w) := by simp [bigKey, hw0]
      have kv : bigKey preferredFormat v =
          (0, codecPriority v.codec, effBitrate v) := by simp [bigKey, hv0]
      rw [kw, kv]
      exact Or.inr ⟨rfl, hle2⟩
  · have hv := Option.some.inj h
    have hvm : v ∈ p :: ps := by rw [← hv]; exact pymaxNat_mem _ ps p
    have hvf : v ∈ infos.filter (fun i => i.codec == preferredFormat) := by
      rw [hfe]; exact hvm
    have hvc : (v.codec == preferredFormat) = true := (List.mem_filter.mp hvf).2
    have e2 : v.codec = preferredFormat := eq_of_beq hvc
    have kv : bigKey preferredFormat v =
        (1, codecPriority preferredFormat, effBitrate v) := by
      simp [bigKey, hvc, e2]
    intro w hw
    cases hcw : (w.codec == preferredFormat) with
    | true =>
      have hwf : w ∈ p :: ps := by
        have hmm : w ∈ infos.filter (fun i => i.codec == preferredFormat) :=
          List.mem_filter.mpr ⟨hw, hcw⟩
        rw [hfe] at hmm; exact hmm
      have hle := pymaxNat_ge effBitrate ps p w hwf
      rw [hv] at hle
      have e1 : w.codec = preferredFormat := eq_of_beq hcw
      have kw : bigKey preferredFormat w =
          (1, codecPriority preferredFormat, effBitrate w) := by
        simp [bigKey, hcw, e1]
      rw [kw, kv]
      exact Or.inr ⟨rfl, Or.inr ⟨rfl, hle⟩⟩
    | false =>
      have kw : bigKey preferredFormat w =
          (0, codecPriority w.codec, effBitrate w) := by simp [bigKey, hcw]
      rw [kw, kv]
      exact Or.inl Nat.zero_lt_one

/-- Claim C2.  For every non-empty variant list and preferred codec the selector
returns a variant of the list; if some variant matches the preferred codec
the result matches it and has maximal effective bitrate (missing = 0) among
the matches, otherwise the result is maximal under the lexicographic
`(codec priority, effective bitrate)` pair; and the two scenario inputs
select `{mp3,320}` resp. `{flac,900}`. -/
theorem c2_quality_selector (infos : List DownloadInfo)
    (preferredFormat : String) (hne : infos ≠ []) :
    (∃ v, selectBestInfo preferredFormat infos = some v ∧ v ∈ infos ∧
      ((∃ w ∈ infos, w.codec = preferredFormat) →
        v.codec = preferredFormat ∧
          ∀ w ∈ infos, w.codec = preferredFormat →
            effBitrate w ≤ effBitrate v) ∧
      ((∀ w ∈ infos, w.codec ≠ preferredFormat) →
        ∀ w ∈ infos,
          lex2Le (codecPriority w.codec, effBitrate w)
            (codecPriority v.codec, effBitrate v))) ∧
    selectBestInfo "mp3"
        [⟨"mp3", some 128⟩, ⟨"mp3", some 320⟩, ⟨"flac", some 900⟩] =
      some ⟨"mp3", some 320⟩ ∧
    selectBestInfo "ogg"
        [⟨"mp3", some 128⟩, ⟨"mp3", some 320⟩, ⟨"flac", some 900⟩] =
      some ⟨"flac", some 900⟩ := by
  refine ⟨?_, by decide, by decide⟩
  rcases hfe : infos.filter (fun i => i.codec == preferredFormat) with _ | ⟨p, ps⟩
  · have hnone : ∀ w ∈ infos, w.codec ≠ preferredFormat := by
      intro w hw hcc
      have hm : w ∈ infos.filter (fun i => i.codec == preferredFormat) :=
        List.mem_filter.mpr ⟨hw, by simp [hcc]⟩
      rw [hfe] at hm
      simp at hm
    cases infos with
    | nil => exact absurd rfl hne
    | cons i rest =>
      refine ⟨pymaxLex (fun x => (codecPriority x.codec, effBitrate x)) i rest,
        by simp [selectBestInfo, hfe], pymaxLex_mem _ rest i, ?_, ?_⟩
      · rintro ⟨w, hw, hcw⟩
        exact absurd hcw (hnone w hw)
      · intro _ w hw
        exact pymaxLex_ge (fun x => (codecPriority x.codec, effBitrate x)) rest i w hw
  · have hsub : ∀ w ∈ p :: ps,
        w ∈ infos ∧ (w.codec == preferredFormat) = true := by
      intro w hw
      rw [← hfe] at hw
      exact List.mem_filter.mp hw
    refine ⟨pymaxNat effBitrate p ps, by simp [selectBestInfo, hfe],
      (hsub _ (pymaxNat_mem _ ps p)).1, ?_, ?_⟩
    · intro _
      refine ⟨eq_of_beq (hsub _ (pymaxNat_mem _ ps p)).2, ?_⟩
      intro w hw hcw
      have hwf : w ∈ p :: ps := by
        have hm : w ∈ infos.filter (fun i => i.codec == preferredFormat) :=
          List.mem_filter.mpr ⟨hw, by simp [hcw]⟩
        rw [hfe] at hm; exact hm
      exact pymaxNat_ge effBitrate ps p w hwf
    · intro hforall
      exact absurd (eq_of_beq (hsub p (by simp)).2)
        (hforall p (hsub p (by simp)).1)

/-- Witness for C2 at a concrete input. -/
theorem c2_quality_selector_witness :
    selectBestInfo "mp3"
        [⟨"mp3", some 128⟩, ⟨"mp3", some 320⟩, ⟨"flac", some 900⟩] =
      some ⟨"mp3", some 320⟩ :=
  (c2_quality_selector
    [⟨"mp3", some 128⟩, ⟨"mp3", some 320⟩, ⟨"flac", some 900⟩] "mp3"
    (by decide)).2.1

theorem lex3Le_antisymm {p q : Nat × Nat × Nat}
    (h1 : lex3Le p q) (h2 : lex3Le q p) : p = q := by
  unfold lex3Le at h1 h2
  have h3 : p.1 = q.1 ∧ p.2.1 = q.2.1 ∧ p.2.2 = q.2.2 := by omega
  obtain ⟨ha, hb, hc⟩ := h3
  obtain ⟨p1, p2, p3⟩ := p
  obtain ⟨q1, q2, q3⟩ := q
  simp only at ha hb hc
  rw [ha, hb, hc]

/-- Claim C10 counterexample: two variant lists that are permutations of each
other on which the selector returns variants with different codecs (both
have fallback priority 0 and equal bitrate, and Python's `max` keeps the
first maximum). -/
theorem c10_counterexample :
    List.Perm
        [(⟨"ogg", some 128⟩ : DownloadInfo), ⟨"opus", some 128⟩]
        [⟨"opus", some 128⟩, ⟨"ogg", some 128⟩] ∧
    selectBestInfo "mp3" [⟨"ogg", some 128⟩, ⟨"opus", some 128⟩] =
      some ⟨"ogg", some 128⟩ ∧
    selectBestInfo "mp3" [⟨"opus", some 128⟩, ⟨"ogg", some 128⟩] =
      some ⟨"opus", some 128⟩ ∧
    (⟨"ogg", some 128⟩ : DownloadInfo).codec ≠
      (⟨"opus", some 128⟩ : DownloadInfo).codec :=
  ⟨List.Perm.swap _ _ _, by decide, by decide, by decide⟩

/-- Claim C10 amended: permuting a non-empty variant list preserves the selected
variant's full selection key — whether it matches the preferred codec, its
fallback codec priority, and its effective bitrate (missing counted 0) —
though not necessarily the literal codec/bitrate when distinct variants tie
on that key. -/
theorem c10_permutation_key (preferredFormat : String)
    (l l2 : List DownloadInfo) (hperm : l.Perm l2) (hne : l ≠ []) :
    ∃ v v2, selectBestInfo preferredFormat l = some v ∧
      selectBestInfo preferredFormat l2 = some v2 ∧
      (v.codec == preferredFormat) = (v2.codec == preferredFormat) ∧
      codecPriority v.codec = codecPriority v2.codec ∧
      effBitrate v = effBitrate v2 := by
  have hne2 : l2 ≠ [] := by
    intro e
    subst e
    exact hne hperm.eq_nil
  obtain ⟨v, hv⟩ := selectBestInfo_some preferredFormat l hne
  obtain ⟨v2, hv2⟩ := selectBestInfo_some preferredFormat l2 hne2
  have hm1 : v ∈ l := selectBestInfo_mem hv
  have hm2 : v2 ∈ l2 := selectBestInfo_mem hv2
  have h12 : lex3Le (bigKey preferredFormat v) (bigKey preferredFormat v2) :=
    selectBestInfo_max hv2 v (hperm.mem_iff.mp hm1)
  have h21 : lex3Le (bigKey preferredFormat v2) (bigKey preferredFormat v) :=
    selectBestInfo_max hv v2 (hperm.mem_iff.mpr hm2)
  have heq := lex3Le_antisymm h12 h21
  have h1 := congrArg (fun t : Nat × Nat × Nat => t.1) heq
  have h2 := congrArg (fun t : Nat × Nat × Nat => t.2.1) heq
  have h3 := congrArg (fun t : Nat × Nat × Nat => t.2.2) heq
  simp only [bigKey] at h1 h2 h3
  refine ⟨v, v2, hv, hv2, ?_, h2, h3⟩
  cases hb1 : (v.codec == preferredFormat) <;>
    cases hb2 : (v2.codec == preferredFormat) <;>
      rw [hb1, hb2] at h1 <;> simp at h1 ⊢

/-- Witness for C10 amended at a concrete permutation. -/
theorem c10_permutation_key_witness :
    ∃ v v2,
      selectBestInfo "mp3" [(⟨"ogg", some 128⟩ : DownloadInfo), ⟨"opus", some 128⟩] =
        some v ∧
      selectBestInfo "mp3" [⟨"opus", some 128⟩, ⟨"ogg", some 128⟩] = some v2 ∧
      (v.codec == "mp3") = (v2.codec == "mp3") ∧
      codecPriority v.codec = codecPriority v2.codec ∧
      effBitrate v = effBitrate v2 :=
  c10_permutation_key "mp3" _ _ (List.Perm.swap _ _ _) (by decide)

/-! ## Retry loop: C6 and C7 -/

theorem gbqGo_netErr (oracle : Nat → LookupOutcome) (preferredFormat : String)
    (hnet : ∀ i, oracle i = .netErr) :
    ∀ (r attempt : Nat),
      gbqGo oracle preferredFormat attempt r =
        (none, r, (List.range' attempt (r - 1)).map (2 ^ ·)) := by
  intro r
  induction r with
  | zero => intro attempt; simp [gbqGo]
  | succ k ih =>
    intro attempt
    rw [gbqGo, hnet attempt]
    cases k with
    | zero => simp
    | succ m =>
      simp only [Nat.zero_lt_succ, if_pos, ih (attempt + 1)]
      simp [List.range'_succ]

/-- Claim C6.  When every variant-lookup attempt fails with a transient network
error, `get_best_quality_download_info` issues exactly `maxRetries`
attempts, sleeps `2 ^ attempt` seconds between consecutive attempts for
`attempt = 0, …, maxRetries - 2`, and finally returns `none` instead of
raising. -/
theorem c6_retry_backoff (oracle : Nat → LookupOutcome)
    (preferredFormat : String) (maxRetries : Nat)
    (hnet : ∀ i, oracle i = .netErr) :
    get_best_quality_download_info oracle preferredFormat maxRetries =
      (none, maxRetries, (List.range (maxRetries - 1)).map (2 ^ ·)) := by
  unfold get_best_quality_download_info
  rw [gbqGo_netErr oracle preferredFormat hnet maxRetries 0, List.range_eq_range']

/-- Witness for C6 with the default `maxRetries = 3`: three attempts,
sleeps of 1 s and 2 s, final result `none`. -/
theorem c6_retry_backoff_witness :
    get_best_quality_download_info (fun _ => .netErr) "mp3" 3 =
      (none, 3, [1, 2]) :=
  (c6_retry_backoff (fun _ => .netErr) "mp3" 3 (fun _ => rfl)).trans (by decide)

/-- Claim C7.  If the first variant-lookup call completes but returns an empty
list, the executor returns `none` after exactly that one attempt, with no
retry and no backoff sleep. -/
theorem c7_no_variants (oracle : Nat → LookupOutcome)
    (preferredFormat : String) (maxRetries : Nat) (hpos : 1 ≤ maxRetries)
    (h0 : oracle 0 = .ok []) :
    get_best_quality_download_info oracle preferredFormat maxRetries =
      (none, 1, []) := by
  unfold get_best_quality_download_info
  cases maxRetries with
  | zero => omega
  | succ n => rw [gbqGo, h0]; simp

/-- Witness for C7 with the default `maxRetries = 3`. -/
theorem c7_no_variants_witness :
    get_best_quality_download_info (fun _ => .ok []) "mp3" 3 = (none, 1, []) :=
  c7_no_variants (fun _ => .ok []) "mp3" 3 (by decide) rfl

/-! ## Download executor: C3 -/

theorem fsLookup_write (fs : List (String × Nat)) (p : String) (n : Nat) :
    fsLookup (fsWrite fs p n) p = some n := by
  simp [fsWrite, fsLookup]

/-- Claim C3 counterexample: the core executor `download_track_file` performs the
byte transfer even when the destination path already exists (here a file of
size 5 at `"out.mp3"`): the transfer counter rises to 1 and the reported
size is the freshly transferred 7 bytes, not the existing 5. -/
theorem c3_counterexample :
    ((download_track_file (some ⟨"mp3", some 320⟩) (some "url") true 7
        "out.mp3" ⟨[("out.mp3", 5)], 0⟩).2).transfers = 1 ∧
    ((download_track_file (some ⟨"mp3", some 320⟩) (some "url") true 7
        "out.mp3" ⟨[("out.mp3", 5)], 0⟩).1).2 = some ⟨7, "mp3", some 320⟩ := by
  exact ⟨rfl, rfl⟩

/-- Claim C3 amended: the CLI executor `download_track` is idempotent in the
destination path.  Provided the variant lookup yields an info object, if
the first call reports success then a second call on the same path (with
any link/transfer oracle outcomes) reports success and leaves the world —
in particular the transfer counter — unchanged: no second network
transfer occurs. -/
theorem c3_idempotent_skip (di : DownloadInfo) (link link2 : Option String)
    (ok ok2 : Bool) (sz sz2 : Nat) (p : String) (w : World)
    (h : (download_track (some di) link ok sz p w).1 = true) :
    download_track (some di) link2 ok2 sz2 p
        (download_track (some di) link ok sz p w).2 =
      (true, (download_track (some di) link ok sz p w).2) := by
  by_cases hl : (fsLookup w.files p).isSome
  · simp [download_track, hl]
  · cases link with
    | none => simp [download_track, hl] at h
    | some u =>
      cases ok with
      | false => simp [download_track, hl] at h
      | true => simp [download_track, hl, fsLookup_write]

/-- Witness for C3 amended: after a successful fresh download the second
call reports success on the unchanged world. -/
theorem c3_idempotent_skip_witness :
    download_track (some ⟨"mp3", some 320⟩) (some "url2") false 9 "out.mp3"
        (download_track (some ⟨"mp3", some 320⟩) (some "url") true 7 "out.mp3"
          ⟨[], 0⟩).2 =
      (true,
        (download_track (some ⟨"mp3", some 320⟩) (some "url") true 7 "out.mp3"
          ⟨[], 0⟩).2) :=
  c3_idempotent_skip ⟨"mp3", some 320⟩ (some "url") (some "url2") true false
    7 9 "out.mp3" ⟨[], 0⟩ (by decide)

/-! ## Orchestrator download loop: C4 -/

theorem runLoop_counts (total : Nat) :
    ∀ (os : List TrackOutcome) (idx : Nat) (s : RunState),
      (runLoop total idx os s).successful = s.successful + succCount os ∧
        (runLoop total idx os s).failed = s.failed + failCount os
  | [], idx, s => by simp [runLoop, succCount, failCount]
  | o :: rest, idx, s => by
    have ih := runLoop_counts total rest (idx + 1) (stepTrack total idx o s)
    cases o <;>
      simp [runLoop, stepTrack, succCount, failCount, TrackOutcome.isSuccess,
        List.filter] at ih ⊢ <;>
      omega

theorem succCount_add_failCount (os : List TrackOutcome) :
    succCount os + failCount os = os.length := by
  induction os with
  | nil => rfl
  | cons o rest ih =>
    cases o <;>
      simp [succCount, failCount, TrackOutcome.isSuccess, List.filter] at ih ⊢ <;>
      omega

/-- Claim C4 amended.  For every sequence of per-track outcomes the services
download loop terminates with `successful = N - K` and `failed = K` (where
`K` counts the non-successful tracks), reports the run as successful
exactly when at least one track succeeded (`K < N`), and — whenever at
least one track succeeded — the progress sink's final event carries
`current = total`.  (When every track fails, the final event may carry
`current < total`; see the counterexample.) -/
theorem c4_download_loop (outcomes : List TrackOutcome) :
    (download_tracks_run outcomes).2.successful =
      outcomes.length - failCount outcomes ∧
    (download_tracks_run outcomes).2.failed = failCount outcomes ∧
    ((download_tracks_run outcomes).1 = true ↔
      failCount outcomes < outcomes.length) ∧
    (failCount outcomes < outcomes.length →
      (download_tracks_run outcomes).2.events.getLast? =
        some (outcomes.length, outcomes.length)) := by
  have hc := runLoop_counts outcomes.length outcomes 1 ⟨0, 0, [(0, outcomes.length)]⟩
  have hsf := succCount_add_failCount outcomes
  set s := runLoop outcomes.length 1 outcomes ⟨0, 0, [(0, outcomes.length)]⟩ with hs
  have hrun : download_tracks_run outcomes =
      if 0 < s.successful then
        (true, { s with events := s.events ++ [(outcomes.length, outcomes.length)] })
      else (false, s) := rfl
  have hsc : s.successful = succCount outcomes := by
    have h1 := hc.1
    simpa using h1
  have hfc : s.failed = failCount outcomes := by
    have h2 := hc.2
    simpa using h2
  rw [hrun]
  by_cases hpos : 0 < s.successful
  · rw [if_pos hpos]
    refine ⟨?_, ?_, ?_, ?_⟩
    · show s.successful = outcomes.length - failCount outcomes
      omega
    · show s.failed = failCount outcomes
      exact hfc
    · constructor
      · intro _
        omega
      · intro _
        rfl
    · intro _
      show (s.events ++ [(outcomes.length, outcomes.length)]).getLast? =
        some (outcomes.length, outcomes.length)
      rw [List.getLast?_concat]
  · rw [if_neg hpos]
    refine ⟨?_, ?_, ?_, ?_⟩
    · show s.successful = outcomes.length - failCount outcomes
      omega
    · exact hfc
    · constructor
      · intro he
        simp at he
      · intro hk
        exfalso
        omega
    · intro hk
      exfalso
      omega

/-- Witness for C4 amended at `N = 2`, `K = 1`: the run reports success and
the final progress event is `(2, 2)`. -/
theorem c4_download_loop_witness :
    (download_tracks_run [TrackOutcome.success, TrackOutcome.noInfos]).2.events.getLast? =
      some (2, 2) :=
  (c4_download_loop [TrackOutcome.success, TrackOutcome.noInfos]).2.2.2 (by decide)

/-- Claim C4 counterexample: with `N = 1` and the single track failing on the
`if not download_infos: continue` path, the loop ends with
`successful = 0`, `failed = 1` and an unsuccessful report as the claim
says, but the progress sink's final event is `(0, 1)` — its `current`
does not equal `total`, contradicting the claim's unconditional
final-event clause. -/
theorem c4_counterexample :
    (download_tracks_run [TrackOutcome.noInfos]).1 = false ∧
    (download_tracks_run [TrackOutcome.noInfos]).2.failed = 1 ∧
    (download_tracks_run [TrackOutcome.noInfos]).2.events.getLast? =
      some (0, 1) ∧
    (0 : Nat) ≠ 1 := by decide

/-! ## Batch fetcher: C5 -/

theorem chunkedGo_join {α : Type _} (size : Nat) (hs : 0 < size) :
    ∀ (fuel : Nat) (l : List α), l.length ≤ fuel →
      (chunkedGo size fuel l).flatten = l
  | 0, l, h => by
    have hl : l = [] := List.eq_nil_of_length_eq_zero (Nat.le_zero.mp h)
    subst hl
    rfl
  | _ + 1, [], _ => rfl
  | fuel + 1, x :: xs, h => by
    simp only [chunkedGo, List.flatten_cons]
    rw [chunkedGo_join size hs fuel ((x :: xs).drop size) ?_]
    · exact List.take_append_drop size (x :: xs)
    · rw [List.length_drop]
      simp only [List.length_cons] at h ⊢
      omega

theorem chunked_join {α : Type _} {size : Nat} (hs : 0 < size) (l : List α) :
    (chunked l size).flatten = l := by
  unfold chunked
  rw [if_neg (by omega)]
  exact chunkedGo_join size hs l.length l le_rfl

theorem chunked_mem_mem {α : Type _} {size : Nat} (hs : 0 < size)
    {l c : List α} (hc : c ∈ chunked l size) {x : α} (hx : x ∈ c) : x ∈ l := by
  have hj : x ∈ (chunked l size).flatten := List.mem_flatten.mpr ⟨c, hc, hx⟩
  rwa [chunked_join hs l] at hj

theorem foldl_append_batches {α : Type _} (g : List String → List α) :
    ∀ (cs : List (List String)) (acc : List α),
      cs.foldl (fun a c => a ++ g c) acc = acc ++ (cs.map g).flatten
  | [], acc => by simp
  | c :: cs, acc => by
    simp only [List.foldl_cons, List.map_cons, List.flatten_cons]
    rw [foldl_append_batches g cs (acc ++ g c), List.append_assoc]

theorem filterMap_eq_map_of_some {β : Type _} (g : String → Option β)
    (f : String → β) :
    ∀ (c : List String), (∀ tid ∈ c, g tid = some (f tid)) →
      c.filterMap g = c.map f
  | [], _ => rfl
  | x :: t, h => by
    have hx := h x (by simp)
    simp [List.filterMap_cons, hx,
      filterMap_eq_map_of_some g f t (fun y hy => h y (by simp [hy]))]

theorem join_map_map {β : Type _} (f : String → β) :
    ∀ (L : List (List String)), (L.map (List.map f)).flatten = L.flatten.map f
  | [] => rfl
  | c :: cs => by
    simp only [List.map_cons, List.flatten_cons, List.map_append,
      join_map_map f cs]

/-- Claim C5.  If every batch request raises while every id is individually
fetchable (yielding `f tid`), the batch fetcher returns exactly one record
per id, in the original id order: the per-item fallback fully compensates
for the failed batches. -/
theorem c5_fallback_roundtrip {α : Type _}
    (tracksF : List String → Option (List (Option α))) (f : String → α)
    (track_ids : List String)
    (hbatch : ∀ c ∈ chunked track_ids 100, tracksF c = none)
    (hind : ∀ tid ∈ track_ids, tracksF [tid] = some [some (f tid)]) :
    fetch_tracks_batch tracksF track_ids 100 = track_ids.map f := by
  unfold fetch_tracks_batch
  rw [foldl_append_batches (batchResult tracksF) (chunked track_ids 100) []]
  rw [List.nil_append]
  have hbr : ∀ c ∈ chunked track_ids 100, batchResult tracksF c = c.map f := by
    intro c hc
    unfold batchResult
    rw [hbatch c hc]
    exact filterMap_eq_map_of_some _ f c (fun tid htid => by
      rw [hind tid (chunked_mem_mem (by omega) hc htid)])
  rw [List.map_congr_left hbr, join_map_map f (chunked track_ids 100),
    chunked_join (by omega) track_ids]

/-- Witness for C5: two ids, the two-element batch call fails, singleton
calls succeed; the fetcher returns both records in order. -/
theorem c5_fallback_roundtrip_witness :
    fetch_tracks_batch
        (fun l => if l.length = 1 then some [some ((l.headD "") ++ "!")] else none)
        ["a", "b"] 100 = ["a!", "b!"] :=
  (c5_fallback_roundtrip
    (fun l => if l.length = 1 then some [some ((l.headD "") ++ "!")] else none)
    (fun s => s ++ "!") ["a", "b"] (by decide) (by decide)).trans (by decide)

/-! ## Track positions: C8 -/

theorem likedInv_append {recs : List (String × Nat)} {n : Nat}
    (h : LikedInv (recs, n)) (tid : String) :
    LikedInv (recs ++ [(tid, n)], n + 1) := by
  obtain ⟨h1, h2⟩ := h
  simp only [LikedInv] at h1 h2 ⊢
  constructor
  · simp [h1]
  · rw [List.map_append, h2, List.length_append]
    simp [List.range_succ, h1]

theorem likedStepTrack_inv (st : LikedState) (ot : Option RawTrack)
    (hst : LikedInv st) : LikedInv (likedStepTrack st ot) := by
  cases ot with
  | none => exact hst
  | some t =>
    simp only [likedStepTrack]
    split
    · exact likedInv_append hst _
    · split
      · exact hst
      · exact likedInv_append hst _

theorem likedStepBatch_inv
    (tracksF : List String → Option (List (Option RawTrack)))
    (st : LikedState) (b : List String) (hst : LikedInv st) :
    LikedInv (likedStepBatch tracksF st b) := by
  unfold likedStepBatch
  cases htf : tracksF b with
  | some bt => exact foldl_inv LikedInv likedStepTrack likedStepTrack_inv bt st hst
  | none =>
    refine foldl_inv LikedInv _ ?_ b st hst
    intro s tid hs
    cases h : tracksF [tid] with
    | none => simp only [h]; exact hs
    | some lst =>
      cases lst with
      | nil => simp only [h]; exact hs
      | cons o rest =>
        cases o with
        | none => simp only [h]; exact hs
        | some t => simp only [h]; exact likedInv_append hs tid

/-- Claim C8 amended (liked-tracks path).  Whatever the batch oracle does — any
mix of batch successes, `None` entries, empty ids and per-item fallbacks —
the positions stored by the liked-tracks loop are exactly the running count
of appended records: the final position sequence is dense and gap-free,
`0, …, length - 1` in order. -/
theorem c8_liked_positions
    (tracksF : List String → Option (List (Option RawTrack)))
    (ids : List String) :
    (get_liked_tracks_data tracksF ids).map Prod.snd =
      List.range (get_liked_tracks_data tracksF ids).length := by
  have hall :=
    foldl_inv LikedInv (likedStepBatch tracksF) (likedStepBatch_inv tracksF)
      (chunked ids 100) ([], 0) ⟨rfl, rfl⟩
  exact hall.2

/-- Claim C8 counterexample: in the ordinary-playlist path, positions are the
original playlist indices.  With a first entry that fails to resolve
(neither a `track` nor an id) and a second inline entry, the stored
positions are `[1]` — not the running count `[0] = range 1`: the sequence
has a gap. -/
theorem c8_counterexample :
    (get_playlist_tracks_data (fun _ => none)
        [PTrackShort.neither, PTrackShort.withTrack ⟨"t1", ""⟩]).map Prod.snd =
      [1] ∧
    ([1] : List Nat) ≠ List.range 1 := by decide

/-! ## Identifier resolution: C1 and C9 -/

theorem data_append (a b : String) : (a ++ b).data = a.data ++ b.data := rfl

theorem isEmpty_false_of_ne_nil {l : List Char} (h : l ≠ []) :
    l.isEmpty = false := by
  cases l with
  | nil => exact absurd rfl h
  | cons a t => rfl

theorem matchOwnedAfterScheme_full (tld owner digits : List Char)
    (htld : tld ≠ []) (htldc : ∀ c ∈ tld, isLowerAZ c = true)
    (how : owner ≠ []) (hownc : ∀ c ∈ owner, notSlash c = true)
    (hdig : digits ≠ []) (hdigc : ∀ c ∈ digits, isDigit09 c = true) :
    matchOwnedAfterScheme
        ("://music.yandex.".data ++ (tld ++ ("/users/".data ++
          (owner ++ ("/playlists/".data ++ digits))))) =
      some (String.mk owner, String.mk digits) := by
  simp only [matchOwnedAfterScheme, eatLit_append]
  rw [show ("/users/".data ++ (owner ++ ("/playlists/".data ++ digits))) =
    '/' :: ("users/".data ++ (owner ++ ("/playlists/".data ++ digits))) from rfl]
  rw [takeWhile_append_cons isLowerAZ tld '/' _ htldc (by decide),
    dropWhile_append_cons isLowerAZ tld '/' _ htldc (by decide),
    isEmpty_false_of_ne_nil htld]
  simp only [Bool.false_eq_true, if_false]
  rw [show ('/' :: ("users/".data ++ (owner ++ ("/playlists/".data ++ digits)))) =
    "/users/".data ++ (owner ++ ("/playlists/".data ++ digits)) from rfl]
  simp only [eatLit_append]
  rw [show ("/playlists/".data ++ digits) =
    '/' :: ("playlists/".data ++ digits) from rfl]
  rw [takeWhile_append_cons notSlash owner '/' _ hownc (by decide),
    dropWhile_append_cons notSlash owner '/' _ hownc (by decide),
    isEmpty_false_of_ne_nil how]
  simp only [Bool.false_eq_true, if_false]
  rw [show ('/' :: ("playlists/".data ++ digits)) =
    "/playlists/".data ++ digits from rfl]
  simp only [eatLit_append]
  rw [takeWhile_all isDigit09 digits hdigc, isEmpty_false_of_ne_nil hdig]
  simp only [Bool.false_eq_true, if_false]

theorem matchOwnedAt_full (schemeData : List Char)
    (hsch : schemeData = "http".data ∨ schemeData = "https".data)
    (tld owner digits : List Char)
    (htld : tld ≠ []) (htldc : ∀ c ∈ tld, isLowerAZ c = true)
    (how : owner ≠ []) (hownc : ∀ c ∈ owner, notSlash c = true)
    (hdig : digits ≠ []) (hdigc : ∀ c ∈ digits, isDigit09 c = true) :
    matchOwnedAt (schemeData ++ ("://music.yandex.".data ++ (tld ++
        ("/users/".data ++ (owner ++ ("/playlists/".data ++ digits)))))) =
      some (String.mk owner, String.mk digits) := by
  rcases hsch with rfl | rfl
  · simp only [matchOwnedAt, eatLit_append]
    rw [show ("://music.yandex.".data ++ (tld ++ ("/users/".data ++
      (owner ++ ("/playlists/".data ++ digits))))).headD ' ' = ':' from rfl]
    rw [if_neg (by decide : ¬(':' = 's'))]
    exact matchOwnedAfterScheme_full tld owner digits htld htldc how hownc
      hdig hdigc
  · rw [show "https".data ++ ("://music.yandex.".data ++ (tld ++
      ("/users/".data ++ (owner ++ ("/playlists/".data ++ digits))))) =
      "http".data ++ ('s' :: ("://music.yandex.".data ++ (tld ++
        ("/users/".data ++ (owner ++ ("/playlists/".data ++ digits))))))
      from rfl]
    simp only [matchOwnedAt, eatLit_append]
    rw [if_pos (show ('s' :: ("://music.yandex.".data ++ (tld ++
      ("/users/".data ++ (owner ++ ("/playlists/".data ++ digits)))))).headD ' ' =
        's' from rfl)]
    rw [show ('s' :: ("://music.yandex.".data ++ (tld ++ ("/users/".data ++
      (owner ++ ("/playlists/".data ++ digits)))))).tail =
      "://music.yandex.".data ++ (tld ++ ("/users/".data ++
        (owner ++ ("/playlists/".data ++ digits)))) from rfl]
    exact matchOwnedAfterScheme_full tld owner digits htld htldc how hownc
      hdig hdigc

theorem searchOwned_of_match {cs : List Char} {r : String × String}
    (h : matchOwnedAt cs = some r) : searchOwned cs = some r := by
  cases cs with
  | nil => exact absurd h (by simp [matchOwnedAt, eatLit])
  | cons c t => simp [searchOwned, h]

theorem pyLower_data_length (s : String) :
    (pyLower s).data.length = s.data.length := by
  simp [pyLower]

theorem extract_playlist_id_url (sch tld owner digits : String)
    (hsch : sch = "http" ∨ sch = "https")
    (htld : tld.data ≠ []) (htldc : ∀ c ∈ tld.data, isLowerAZ c = true)
    (how : owner.data ≠ []) (hownc : ∀ c ∈ owner.data, notSlash c = true)
    (hdig : digits.data ≠ []) (hdigc : ∀ c ∈ digits.data, isDigit09 c = true) :
    extract_playlist_id
        (sch ++ "://music.yandex." ++ tld ++ "/users/" ++ owner ++
          "/playlists/" ++ digits) =
      some (owner, digits) := by
  have hdata : (sch ++ "://music.yandex." ++ tld ++ "/users/" ++ owner ++
      "/playlists/" ++ digits).data =
      sch.data ++ ("://music.yandex.".data ++ (tld.data ++ ("/users/".data ++
        (owner.data ++ ("/playlists/".data ++ digits.data))))) := by
    simp only [data_append, List.append_assoc]
  have hm := matchOwnedAt_full sch.data
    (by rcases hsch with h | h
        · exact Or.inl (by rw [h])
        · exact Or.inr (by rw [h]))
    tld.data owner.data digits.data htld htldc how hownc hdig hdigc
  have hsearch : searchOwned (sch ++ "://music.yandex." ++ tld ++ "/users/" ++
      owner ++ "/playlists/" ++ digits).data = some (owner, digits) := by
    rw [hdata]
    exact searchOwned_of_match hm
  unfold extract_playlist_id
  rw [hsearch]

theorem resolveIdentifier_url (sch tld owner digits : String)
    (hsch : sch = "http" ∨ sch = "https")
    (htld : tld.data ≠ []) (htldc : ∀ c ∈ tld.data, isLowerAZ c = true)
    (how : owner.data ≠ []) (hownc : ∀ c ∈ owner.data, notSlash c = true)
    (hdig : digits.data ≠ []) (hdigc : ∀ c ∈ digits.data, isDigit09 c = true) :
    resolveIdentifier
        (sch ++ "://music.yandex." ++ tld ++ "/users/" ++ owner ++
          "/playlists/" ++ digits) =
      some (PlaylistRef.owned owner digits) := by
  have hex := extract_playlist_id_url sch tld owner digits hsch htld htldc
    how hownc hdig hdigc
  have hlen : 9 < (sch ++ "://music.yandex." ++ tld ++ "/users/" ++ owner ++
      "/playlists/" ++ digits).data.length := by
    have hs : sch.data.length = 4 ∨ sch.data.length = 5 := by
      rcases hsch with rfl | rfl
      · exact Or.inl rfl
      · exact Or.inr rfl
    have h1 : 0 < tld.data.length := List.length_pos.mpr htld
    have h2 : 0 < owner.data.length := List.length_pos.mpr how
    have h3 : 0 < digits.data.length := List.length_pos.mpr hdig
    simp only [data_append, List.append_assoc, List.length_append,
      List.length_cons, List.length_nil]
    omega
  have htok : ¬(pyLower (sch ++ "://music.yandex." ++ tld ++ "/users/" ++
      owner ++ "/playlists/" ++ digits) = "liked" ∨
      pyLower (sch ++ "://music.yandex." ++ tld ++ "/users/" ++ owner ++
        "/playlists/" ++ digits) = "favorites" ∨
      pyLower (sch ++ "://music.yandex." ++ tld ++ "/users/" ++ owner ++
        "/playlists/" ++ digits) = "my") := by
    rintro (h | h | h) <;>
      (have hl := congrArg (fun t => t.data.length) h
       simp only [pyLower_data_length] at hl
       rw [hl] at hlen
       exact absurd hlen (by decide))
  unfold resolveIdentifier
  rw [if_neg htok, hex]

/-- Claim C1 amended.  The owner-URL form requires the host `music.yandex.<tld>`
(not an arbitrary host containing "music"): every URL
`http(s)://music.yandex.<tld>/users/<owner>/playlists/<digits>` resolves to
`Owned{owner, digits}`; `"alice:42"` resolves to `Owned{alice, 42}`;
`"liked"` resolves to `Liked`; `"not a playlist"` is an `InvalidFormat`
failure (`none`). -/
theorem c1_identifier_resolution :
    (∀ sch tld owner digits : String,
      (sch = "http" ∨ sch = "https") →
      tld.data ≠ [] → (∀ c ∈ tld.data, isLowerAZ c = true) →
      owner.data ≠ [] → (∀ c ∈ owner.data, notSlash c = true) →
      digits.data ≠ [] → (∀ c ∈ digits.data, isDigit09 c = true) →
      resolveIdentifier
          (sch ++ "://music.yandex." ++ tld ++ "/users/" ++ owner ++
            "/playlists/" ++ digits) =
        some (PlaylistRef.owned owner digits)) ∧
    resolveIdentifier "alice:42" = some (PlaylistRef.owned "alice" "42") ∧
    resolveIdentifier "liked" = some PlaylistRef.liked ∧
    resolveIdentifier "not a playlist" = none :=
  ⟨resolveIdentifier_url, by decide, by decide, by decide⟩

/-- Witness for C1 amended at the concrete scenario URL. -/
theorem c1_identifier_resolution_witness :
    resolveIdentifier
        ("https" ++ "://music.yandex." ++ "ru" ++ "/users/" ++ "alice" ++
          "/playlists/" ++ "42") =
      some (PlaylistRef.owned "alice" "42") :=
  c1_identifier_resolution.1 "https" "ru" "alice" "42" (Or.inr rfl)
    (by decide) (by decide) (by decide) (by decide) (by decide) (by decide)

/-- Claim C1 counterexample: the claim's own scenario input with host
`music.example.tld` does not resolve to `Owned{alice, 42}` — the URL
pattern demands `music.yandex.<tld>`, so the input falls through to the
colon split and yields `Owned{https, //music.example.tld/…}`. -/
theorem c1_counterexample :
    resolveIdentifier "https://music.example.tld/users/alice/playlists/42" =
      some (PlaylistRef.owned "https"
        "//music.example.tld/users/alice/playlists/42") ∧
    PlaylistRef.owned "https" "//music.example.tld/users/alice/playlists/42" ≠
      PlaylistRef.owned "alice" "42" := by decide

theorem matchUuidAfterScheme_full (host uuid : List Char)
    (hh : host ≠ []) (hhc : ∀ c ∈ host, notSlash c = true)
    (hu : uuid ≠ []) (huc : ∀ c ∈ uuid, isUuidChar c = true) :
    matchUuidAfterScheme ("://".data ++ (host ++ ("/playlists/".data ++ uuid))) =
      some (String.mk uuid) := by
  simp only [matchUuidAfterScheme, eatLit_append]
  rw [show ("/playlists/".data ++ uuid) =
    '/' :: ("playlists/".data ++ uuid) from rfl]
  rw [takeWhile_append_cons notSlash host '/' _ hhc (by decide),
    dropWhile_append_cons notSlash host '/' _ hhc (by decide),
    isEmpty_false_of_ne_nil hh]
  simp only [Bool.false_eq_true, if_false]
  rw [show ('/' :: ("playlists/".data ++ uuid)) =
    "/playlists/".data ++ uuid from rfl]
  simp only [eatLit_append]
  rw [takeWhile_all isUuidChar uuid huc, isEmpty_false_of_ne_nil hu]
  simp only [Bool.false_eq_true, if_false]

theorem matchUuidAt_full (schemeData : List Char)
    (hsch : schemeData = "http".data ∨ schemeData = "https".data)
    (host uuid : List Char)
    (hh : host ≠ []) (hhc : ∀ c ∈ host, notSlash c = true)
    (hu : uuid ≠ []) (huc : ∀ c ∈ uuid, isUuidChar c = true) :
    matchUuidAt (schemeData ++ ("://".data ++ (host ++
        ("/playlists/".data ++ uuid)))) =
      some (String.mk uuid) := by
  rcases hsch with rfl | rfl
  · simp only [matchUuidAt, eatLit_append]
    rw [show ("://".data ++ (host ++ ("/playlists/".data ++ uuid))).headD ' ' =
      ':' from rfl]
    rw [if_neg (by decide : ¬(':' = 's'))]
    exact matchUuidAfterScheme_full host uuid hh hhc hu huc
  · rw [show "https".data ++ ("://".data ++ (host ++
      ("/playlists/".data ++ uuid))) =
      "http".data ++ ('s' :: ("://".data ++ (host ++
        ("/playlists/".data ++ uuid)))) from rfl]
    simp only [matchUuidAt, eatLit_append]
    rw [if_pos (show ('s' :: ("://".data ++ (host ++
      ("/playlists/".data ++ uuid)))).headD ' ' = 's' from rfl)]
    rw [show ('s' :: ("://".data ++ (host ++
      ("/playlists/".data ++ uuid)))).tail =
      "://".data ++ (host ++ ("/playlists/".data ++ uuid)) from rfl]
    exact matchUuidAfterScheme_full host uuid hh hhc hu huc

theorem searchUuid_of_match {cs : List Char} {r : String}
    (h : matchUuidAt cs = some r) : searchUuid cs = some r := by
  cases cs with
  | nil => exact absurd h (by simp [matchUuidAt, eatLit])
  | cons c t => simp [searchUuid, h]

/-- Claim C9 (spec-modelled).  For every URL
`http(s)://<host>/playlists/<uuid>` on which the owner-URL pattern (tried
first) does not match, the full resolver returns the `ByUuid{uuid}`
reference via the `'__uuid_playlist__'` marker owner. -/
theorem c9_uuid_resolution (sch host uuid : String)
    (hsch : sch = "http" ∨ sch = "https")
    (hh : host.data ≠ []) (hhc : ∀ c ∈ host.data, notSlash c = true)
    (hu : uuid.data ≠ []) (huc : ∀ c ∈ uuid.data, isUuidChar c = true)
    (hnoOwned :
      searchOwned (sch ++ "://" ++ host ++ "/playlists/" ++ uuid).data = none) :
    resolveIdentifierFull (sch ++ "://" ++ host ++ "/playlists/" ++ uuid) =
      some (PlaylistRef.byUuid uuid) := by
  have hdata : (sch ++ "://" ++ host ++ "/playlists/" ++ uuid).data =
      sch.data ++ ("://".data ++ (host.data ++
        ("/playlists/".data ++ uuid.data))) := by
    simp only [data_append, List.append_assoc]
  have hm := matchUuidAt_full sch.data
    (by rcases hsch with h | h
        · exact Or.inl (by rw [h])
        · exact Or.inr (by rw [h]))
    host.data uuid.data hh hhc hu huc
  have hsearch : searchUuid (sch ++ "://" ++ host ++ "/playlists/" ++
      uuid).data = some uuid := by
    rw [hdata]
    exact searchUuid_of_match hm
  have hepf : extract_playlist_id_full
      (sch ++ "://" ++ host ++ "/playlists/" ++ uuid) =
      some ("__uuid_playlist__", uuid) := by
    unfold extract_playlist_id_full
    rw [hnoOwned, hsearch]
  have hlen : 9 < (sch ++ "://" ++ host ++ "/playlists/" ++
      uuid).data.length := by
    have hs : sch.data.length = 4 ∨ sch.data.length = 5 := by
      rcases hsch with rfl | rfl
      · exact Or.inl rfl
      · exact Or.inr rfl
    have h1 : 0 < host.data.length := List.length_pos.mpr hh
    have h2 : 0 < uuid.data.length := List.length_pos.mpr hu
    simp only [data_append, List.append_assoc, List.length_append,
      List.length_cons, List.length_nil]
    omega
  have htok : ¬(pyLower (sch ++ "://" ++ host ++ "/playlists/" ++ uuid) =
      "liked" ∨
      pyLower (sch ++ "://" ++ host ++ "/playlists/" ++ uuid) = "favorites" ∨
      pyLower (sch ++ "://" ++ host ++ "/playlists/" ++ uuid) = "my") := by
    rintro (h | h | h) <;>
      (have hl := congrArg (fun t => t.data.length) h
       simp only [pyLower_data_length] at hl
       rw [hl] at hlen
       exact absurd hlen (by decide))
  unfold resolveIdentifierFull
  rw [if_neg htok, hepf]
  simp

/-- Witness for C9 at a concrete uuid URL. -/
theorem c9_uuid_resolution_witness :
    resolveIdentifierFull
        ("https" ++ "://" ++ "music.yandex.ru" ++ "/playlists/" ++
          "ab329-1f") =
      some (PlaylistRef.byUuid "ab329-1f") :=
  c9_uuid_resolution "https" "music.yandex.ru" "ab329-1f" (Or.inr rfl)
    (by decide) (by decide) (by decide) (by decide) (by decide)

end YMusic
